import Mathlib

/-!
Verification of the squeaky NSQ client against its specification.

The definitions below are shallow embeddings of the JavaScript sources:
byte buffers become `List Nat` (one entry per byte), JS numbers used as
sizes become `Nat` (with the signed 32-bit reads of `Buffer.readInt32BE`
modelled explicitly where they matter), promise-chained control flow
becomes explicit state passing or a small-step relation, and fallible
operations return `Except`.
-/

namespace Squeaky

/-! ## Byte-level primitives (`Buffer.writeInt32BE` / `Buffer.readInt32BE`)

Shared by the frame decoder (`Connection._receive`) and the command
encoders (`appendPayload` in `lib/connection.js`, `createPayload` in
`lib/each.js`). -/

/-- Big-endian 4-byte layout of a natural number, as `Buffer.writeInt32BE`
lays out any value in `[0, 2^31)`. -/
def beU32 (n : Nat) : List Nat :=
  [n / 2 ^ 24 % 256, n / 2 ^ 16 % 256, n / 2 ^ 8 % 256, n % 256]

/-- Unsigned big-endian read of the first four bytes of a buffer
(0 if the buffer is shorter than 4 bytes). -/
def readU32 : List Nat → Nat
  | b0 :: b1 :: b2 :: b3 :: _ => ((b0 * 256 + b1) * 256 + b2) * 256 + b3
  | _ => 0

/-- `Buffer.readInt32BE`: the first four bytes read big-endian as a signed
32-bit integer. -/
def readI32 (l : List Nat) : Int :=
  let u := readU32 l
  if u < 2 ^ 31 then (u : Int) else (u : Int) - 2 ^ 32

/-! ## The streaming deframer (`Connection._receive`, lib/connection.js 140-163)

An NSQ frame on the wire is `[4-byte BE size][4-byte BE type][body]` with
`size` covering type plus body.  `_receive` appends the incoming chunk to
the retained buffer and then loops: while at least 4 bytes are buffered
and the buffer holds the full frame announced by the size field, it emits
`(type, body)` and advances past the frame; otherwise it returns, keeping
the partial frame buffered. -/

/-- A decoded NSQ frame as the claims describe it: a type tag and a body. -/
structure Frame where
  type : Nat
  body : List Nat
deriving DecidableEq

/-- The wire encoding of one frame: `[size = 4 + |body|][type][body]`. -/
def encodeFrame (f : Frame) : List Nat :=
  beU32 (4 + f.body.length) ++ beU32 f.type ++ f.body

/-- The wire encoding of a sequence of frames. -/
def encodeFrames (fs : List Frame) : List Nat :=
  (fs.map encodeFrame).flatten

/-- Well-formedness of a frame, as assumed by claim C8: the size field
(`4 + |body|`) and the type field are representable as nonnegative signed
32-bit values, so the JS signed reads return them unchanged. -/
def WFFrame (f : Frame) : Prop :=
  4 + f.body.length < 2 ^ 31 ∧ f.type < 2 ^ 31

/-- The `while` loop of `Connection._receive`.  `fuel` bounds the number of
iterations; on the well-formed streams of claim C8 every genuine iteration
consumes at least 8 bytes, so `fuel = buffer length` always suffices (the
theorems below establish this).  Each iteration mirrors the source:
return when fewer than 4 bytes are buffered, read `frameSize = 4 +
readInt32BE(0)`, return when the buffer is shorter than `frameSize`,
otherwise emit `(readInt32BE(4), buffer.slice(8, frameSize))` and continue
on `buffer.slice(frameSize)`. -/
def drain : Nat → List Nat → List (Int × List Nat) × List Nat
  | 0, buf => ([], buf)
  | fuel + 1, buf =>
    if buf.length < 4 then ([], buf)
    else
      let size := readI32 buf
      if (buf.length : Int) < 4 + size then ([], buf)
      else
        let fsz := (4 + size).toNat
        let ftype := readI32 (buf.drop 4)
        let fdata := (buf.take fsz).drop 8
        let rest := drain fuel (buf.drop fsz)
        ((ftype, fdata) :: rest.1, rest.2)

/-- Feed one chunk to the deframer: concatenate it onto the retained
buffer and run the loop (with sufficient fuel). -/
def feedChunk (buffered chunk : List Nat) : List (Int × List Nat) × List Nat :=
  drain (buffered ++ chunk).length (buffered ++ chunk)

/-- Feed a sequence of chunks in order, starting from retained buffer
`buffered`; returns all emitted frames in order and the final buffer. -/
def feedAll (buffered : List Nat) : List (List Nat) → List (Int × List Nat) × List Nat
  | [] => ([], buffered)
  | c :: cs =>
    let r := feedChunk buffered c
    let rest := feedAll r.2 cs
    (r.1 ++ rest.1, rest.2)

/-- The pair a frame is emitted as by the deframer. -/
def frameOut (f : Frame) : Int × List Nat := ((f.type : Int), f.body)

/-- `Pref a b`: `a` is a leading slice of `b`. -/
def Pref (a b : List Nat) : Prop := ∃ t, a ++ t = b

/-- The deframer's buffer invariant: the retained bytes are a proper
leading slice of the encoding of the next undelivered frame (or empty
when no frames remain). -/
def PartialNext : List Nat → List Frame → Prop
  | q, [] => q = []
  | q, f :: _ => Pref q (encodeFrame f) ∧ q.length < (encodeFrame f).length

/-! ## The two MPUB encoders (claim C9)

`appendPayload` (lib/connection.js 41-61) and `createPayload`/`mpub`
(lib/each.js 28-57, 77-79).  Message bodies are modelled as raw byte
buffers (`List Nat`); both sources pass each body through the same
`encodeToBuffer`, which is the identity on buffers, so the comparison is
unaffected.  The signed 32-bit writes/reads of the sources agree with the
unsigned `beU32`/`readU32` used here for all values below `2^31`; the
theorems carry those bounds. -/

/-- The byte rendering of the command line `MPUB <topic>\n`
(`Buffer.from("MPUB " + topic + "\n")`). -/
def mpubLine (topic : List Nat) : List Nat :=
  [77, 80, 85, 66, 32] ++ topic ++ [10]

/-- The non-array branch of `appendPayload`: push `[4-byte length][body]`. -/
def appendBodyBits (b : List Nat) : List Nat :=
  beU32 b.length ++ b

/-- The array branch of `appendPayload` from lib/connection.js: encode each
chunk as `[4-byte length][body]`, accumulating `size` as the sum of the
per-chunk return values `4 + |body|`, then emit the 8-byte header
`[size][count]` followed by the chunk encodings. -/
def appendPayloadList (bodies : List (List Nat)) : List Nat :=
  beU32 ((bodies.map (fun b => 4 + b.length)).sum)
    ++ beU32 bodies.length
    ++ (bodies.map appendBodyBits).flatten

/-- The bytes `Connection._send` writes for `MPUB topic` with an array
body: the command line followed by `appendPayload`'s output. -/
def connectionMpub (topic : List Nat) (bodies : List (List Nat)) : List Nat :=
  mpubLine topic ++ appendPayloadList bodies

/-- The even-indexed elements of a list (positions 0, 2, 4, ...), as
selected by `createPayload`'s reduce which skips `idx % 2 > 0`. -/
def evenIdx : List α → List α
  | [] => []
  | [x] => [x]
  | x :: _ :: rest => x :: evenIdx rest

/-- `mpub topic body = createPayload("MPUB " + topic, ...body)` from
lib/each.js.  `payloads` is the flat list `[hdr₁, body₁, hdr₂, body₂, …]`;
when it has more than two entries an 8-byte header is prepended whose
first word re-reads and sums the per-chunk length headers and whose second
word is `payloads.length / 2`; with zero args only the command line is
returned, and with one message (two entries) no 8-byte header is
emitted. -/
def createPayloadMpub (topic : List Nat) (bodies : List (List Nat)) : List Nat :=
  let cmd := mpubLine topic
  match bodies with
  | [] => cmd
  | _ =>
    let payloads := (bodies.map (fun b => [beU32 b.length, b])).flatten
    if 2 < payloads.length then
      cmd ++ beU32 (((evenIdx payloads).map readU32).sum)
        ++ beU32 (payloads.length / 2)
        ++ payloads.flatten
    else
      cmd ++ payloads.flatten

/-! ## RDY distribution (`Subscriber._distributeReady`, lib/connection.js 774-807)

A subscriber connection is represented by the two fields the algorithm
reads: `ready` and `lastMessage`. -/

/-- The per-connection state the distribution algorithm inspects:
`_ready` (0 for a fresh connection, whose `_ready` is undefined and fails
the `> 0` test) and `_lastMessage`. -/
structure Conn where
  ready : Nat
  lastMessage : Int
deriving DecidableEq

/-- Modelled from the spec: the newest `Connection.ready(count)`, whose
source is absent from src/ (only the Subscriber caller and the tests
reference its `_ready` field), records the granted count on the
connection — the tests assert `connection._ready` equals the value most
recently granted by `_distributeReady`. -/
def setReady (n : Nat) (c : Conn) : Conn :=
  { c with ready := n }

/-- `connections.sort((a, b) => a._lastMessage - b._lastMessage)`: a stable
ascending sort by `_lastMessage` (V8's `Array.prototype.sort` is stable). -/
def sortByLastMessage (l : List Conn) : List Conn :=
  List.insertionSort (fun a b => a.lastMessage ≤ b.lastMessage) l

/-- `Subscriber._distributeReady` with effective concurrency `c`
(`this.concurrency`: 0 while paused, the configured value otherwise).
When `c < N`: partition into `used` (`_ready > 0`) and `unused`, sort each
by `_lastMessage` ascending, slice `unused` to the first `c`, slice `used`
to the length of that slice, grant 0 to the used slice and 1 to the unused
slice, leaving every other connection untouched.  When `c ≥ N`: grant
`⌊c / N⌋` to every connection.  The result lists the connections with
their new `ready` values (grouped by the partition; the subscriber's
connection set is unordered). -/
def distributeReady (c : Nat) (conns : List Conn) : List Conn :=
  if c < conns.length then
    let used := sortByLastMessage (conns.filter fun x => 0 < x.ready)
    let unused := sortByLastMessage (conns.filter fun x => x.ready = 0)
    let unusedSel := unused.take c
    let usedSel := used.take unusedSel.length
    usedSel.map (setReady 0) ++ used.drop unusedSel.length
      ++ unusedSel.map (setReady 1) ++ unused.drop c
  else
    conns.map (setReady (c / conns.length))

/-- The sum of the most recently granted ready counts. -/
def totalReady (l : List Conn) : Nat :=
  (l.map (·.ready)).sum

/-- Claim C3's description of the distribution, written from the claim's
words: "if C ≥ N, every connection is granted ready = floor(C / N) …; if
C < N, connections with current ready > 0 form used and those with
ready = 0 form unused, each sorted by last_message_at ascending, and
ready = 1 is granted to the first C entries of unused while ready = 0 is
set on the first |unused| entries of used" — with `|unused|` the size of
the unused partition. -/
def specDistributeReady (c : Nat) (conns : List Conn) : List Conn :=
  if conns.length ≤ c then
    conns.map (setReady (c / conns.length))
  else
    let p := conns.partition fun x => 0 < x.ready
    let used := sortByLastMessage p.1
    let unused := sortByLastMessage p.2
    (used.take p.2.length).map (setReady 0) ++ used.drop p.2.length
      ++ (unused.take c).map (setReady 1) ++ unused.drop c

/-- Claim C3 amended: ready = 0 is set on the first `min(C, |unused|)`
entries of used (the length of the slice of unused actually granted),
not on the first `|unused|` entries. -/
def specDistributeReadyAmended (c : Nat) (conns : List Conn) : List Conn :=
  if conns.length ≤ c then
    conns.map (setReady (c / conns.length))
  else
    let p := conns.partition fun x => 0 < x.ready
    let used := sortByLastMessage p.1
    let unused := sortByLastMessage p.2
    (used.take (min c p.2.length)).map (setReady 0) ++ used.drop (min c p.2.length)
      ++ (unused.take c).map (setReady 1) ++ unused.drop c

/-! ## Outstanding response waiters (claim C2)

`Connection._send` (src/unnamed/part_005 233-268) chains every ordinary
send on `this.sending`; a send of a `needsResponse` command pushes a
waiter onto `this.waiting` and the chain does not continue to the next
send until that waiter's promise is resolved (by `_dispatchResult` on a
RESPONSE frame) or rejected (by `_dispatchError` on an ERROR frame), both
of which shift the head of `waiting`.  Two further parts of the source
touch this state:

* the `isIdentify` early return (part_005 259-261): `_identify` calls
  `_send('  V2IDENTIFY', …, true, true)` on every socket `connect` —
  at construction and again after each reconnect — and that call runs
  `send` directly, outside the `sending` chain, pushing its waiter
  regardless of whether the chain is awaiting one;
* `_reconnect` (part_005 107-161): it removes the socket listeners,
  destroys the socket and schedules the retry, but never clears or
  rejects `this.waiting`, so waiters outstanding at the moment of a
  disconnect survive into the next connection.

The state machine below embeds all of that: `pending` is the
submitted-but-unsent tail of the chain, `blockedOn` the waiter whose
promise the chain is awaiting, `link` whether the socket is currently
connected. -/

/-- A command envelope: an identifier and whether it needs a response. -/
structure Cmd where
  id : Nat
  needsResponse : Bool
deriving DecidableEq

/-- The send-discipline state of one connection. -/
structure SendState where
  pending : List Cmd
  waiting : List Cmd
  blockedOn : Option Cmd
  written : List Cmd
  link : Bool
deriving DecidableEq

/-- A freshly constructed connection: nothing queued, nothing
outstanding, the socket not yet connected (it is about to `connect` and
run `_identify`). -/
def initSend : SendState :=
  { pending := [], waiting := [], blockedOn := none, written := [], link := false }

/-- One step of the connection's progress context. -/
inductive SendStep : SendState → SendState → Prop
  /-- A caller chains another command onto `this.sending`. -/
  | submit (s : SendState) (c : Cmd) :
      SendStep s { s with pending := s.pending ++ [c] }
  /-- The chain reaches the next send while not awaiting any waiter:
  the command is written; if it needs a response it is pushed onto
  `waiting` and the chain then awaits its promise.  (The write itself is
  not gated on the socket being up: `writeAsync` may fail, and
  `.then(next, next)` proceeds to the await either way.) -/
  | write (s : SendState) (c : Cmd) (rest : List Cmd)
      (hp : s.pending = c :: rest) (hb : s.blockedOn = none) :
      SendStep s
        { s with
          pending := rest
          waiting := if c.needsResponse then s.waiting ++ [c] else s.waiting
          blockedOn := if c.needsResponse then some c else none
          written := s.written ++ [c] }
  /-- The socket `connect` event fires (initial connect, or the reconnect
  after a drop) and `_identify` runs: the IDENTIFY envelope `c` (which
  needs a response) is written by the `isIdentify` early return of
  `_send`, outside the `sending` chain, so no `blockedOn` guard applies
  and the chain state is untouched. -/
  | identifyBypass (s : SendState) (c : Cmd)
      (hl : s.link = false) (hc : c.needsResponse = true) :
      SendStep s
        { s with
          link := true
          waiting := s.waiting ++ [c]
          written := s.written ++ [c] }
  /-- The socket closes or errors before an explicit close: `_reconnect`
  removes the listeners, destroys the socket and schedules a retry — it
  does not clear or reject `waiting`, and the chain stays blocked on
  whatever it was awaiting. -/
  | drop (s : SendState) (hl : s.link = true) :
      SendStep s { s with link := false }
  /-- A RESPONSE frame on the live socket: `_dispatchResult` shifts the
  head waiter and resolves it; if the chain was awaiting that waiter it
  resumes. -/
  | response (s : SendState) (w : Cmd) (ws : List Cmd)
      (h : s.waiting = w :: ws) (hl : s.link = true) :
      SendStep s
        { s with
          waiting := ws
          blockedOn := if s.blockedOn = some w then none else s.blockedOn }
  /-- An ERROR frame on the live socket: `_dispatchError` shifts the head
  waiter and rejects it; the chain resumes the same way. -/
  | errorFrame (s : SendState) (w : Cmd) (ws : List Cmd)
      (h : s.waiting = w :: ws) (hl : s.link = true) :
      SendStep s
        { s with
          waiting := ws
          blockedOn := if s.blockedOn = some w then none else s.blockedOn }

/-- The states a connection can reach from construction. -/
inductive SendReachable : SendState → Prop
  | init : SendReachable initSend
  | step {s t : SendState} : SendReachable s → SendStep s t → SendReachable t

/-! ## ERROR frame processing (claim C4)

`Connection._processFrame`, ERROR branch (src/unnamed/part_005 205-213):
take the first whitespace-delimited token of the frame body as the error
code, reject the outstanding waiter if any (`_dispatchError` shifts the
head of `waiting`), and call `socket.end()` — a half-close — exactly when
the code is not one of the three non-fatal codes. -/

/-- The error codes the source treats as non-fatal. -/
def nonFatalCodes : List String :=
  ["E_REQ_FAILED", "E_FIN_FAILED", "E_TOUCH_FAILED"]

/-- `msg.split(/\s+/)[0]`: the leading run of non-whitespace characters
(empty when the message starts with whitespace or is empty, matching the
JS split). -/
def errorCode (msg : String) : String :=
  msg.takeWhile (fun ch => ¬ ch.isWhitespace)

/-- The outcome of processing one ERROR frame: the remaining waiters, the
waiter that was rejected (if any), and whether the socket was
half-closed. -/
structure ErrOut where
  waiting : List Nat
  rejected : Option Nat
  halfClosed : Bool
deriving DecidableEq

/-- The ERROR branch of `_processFrame`, over the list of outstanding
waiter identifiers. -/
def processErrorFrame (msg : String) (waiting : List Nat) : ErrOut :=
  { waiting := waiting.tail
    rejected := waiting.head?
    halfClosed := !(nonFatalCodes.contains (errorCode msg)) }

/-! ## publish (claim C5)

`Connection.publish` (lib/connection.js 280-294; identically
src/unnamed/part_005 307-317): reject before touching any state when a
truthy delay is combined with an array body, otherwise select the command
and enqueue the envelope. -/

/-- A publish body: a single buffer or an array of buffers
(`Array.isArray` distinguishes them). -/
inductive PubData
  | buf : List Nat → PubData
  | arr : List (List Nat) → PubData
deriving DecidableEq

/-- `Array.isArray(data)`. -/
def isArrayData : PubData → Bool
  | .arr _ => true
  | .buf _ => false

/-- JS truthiness of the `delay` argument: absent and `0` are falsy. -/
def delayTruthy : Option Nat → Bool
  | none => false
  | some d => d != 0

/-- The connection state `publish` touches: the command queue (envelopes
as command-line/data pairs) and the bytes already written to the
socket. -/
structure PubConn where
  queue : List (String × PubData)
  written : List (List Nat)
deriving DecidableEq

/-- The command line `publish` selects:
`Array.isArray(data) ? MPUB topic : (delay ? DPUB topic delay : PUB topic)`. -/
def pubCommand (topic : String) (data : PubData) (delay : Option Nat) : String :=
  if isArrayData data then "MPUB " ++ topic
  else if delayTruthy delay then "DPUB " ++ topic ++ " " ++ toString (delay.getD 0)
  else "PUB " ++ topic

/-- `Connection.publish`: `if (delay && Array.isArray(data))` reject with
"Cannot delay a multi publish" before creating or queueing any envelope;
otherwise enqueue the selected command with the data. -/
def publish (c : PubConn) (topic : String) (data : PubData) (delay : Option Nat) :
    Except String Unit × PubConn :=
  if delayTruthy delay ∧ isArrayData data then
    (Except.error "Cannot delay a multi publish", c)
  else
    (Except.ok (), { c with queue := c.queue ++ [(pubCommand topic data delay, data)] })

/-! ## close (claim C6)

`Connection.close` (src/unnamed/part_005 293-305): when subscribed,
`cleanup = this.sending.then(() => this.cls()).then(() => Promise.all(
inflight promises))`, i.e. first the pending send chain drains, then CLS
is sent, then every inflight message's finalizer promise is awaited (each
resolves on FIN, REQ or the `msg_timeout` timer); when not subscribed,
`cleanup = this.sending` alone.  `close` returns
`cleanup.then(finish).catch(finish)` where `finish` sets `state = Closed`
and calls `socket.end()` — so `finish` runs whether `cleanup` resolves or
rejects.  `cleanup` rejects in two ways, both decided by the environment
(ERROR frames from the server): `this.sending` may already be rejected
when `close()` is called — a rejection of any earlier response-bearing
command propagates through `_send`'s `.then` chaining, and the commands
queued behind it are then never written — or the CLS waiter itself may be
rejected after CLS is written.  The `.then`/`.catch` chain is embedded as
the ordered trace of effects, parametrised by those two outcomes. -/

/-- Connection states (lib/states.js), restricted to those `close`
touches. -/
inductive St
  | connecting
  | identifying
  | ready
  | reconnecting
  | closed
deriving DecidableEq

/-- One observable effect of `close`. -/
inductive CloseEv
  | wrote (cmd : String)
  | awaitedInflight (id : Nat)
  | setClosed
  | endedSocket
deriving DecidableEq

/-- The connection state `close` reads: the subscription flag, the
commands still pending in the send chain, the inflight message ids, and
the state tag. -/
structure CloseConn where
  subscribed : Bool
  queued : List String
  inflight : List Nat
  state : St
deriving DecidableEq

/-- `Connection.close`: the ordered trace of its effects and the final
state.  `sendingOk` is whether the `this.sending` chain settles without a
rejection (false when a previously rejected response-bearing command has
poisoned it — the queued commands behind the rejection are then never
written); `clsOk` is whether the CLS waiter is resolved by a RESPONSE
rather than rejected by an ERROR frame (only consulted when subscribed).
On any rejection `.catch(finish)` still transitions to Closed and ends
the socket, skipping the remaining cleanup stages. -/
def close (c : CloseConn) (sendingOk clsOk : Bool) : List CloseEv × CloseConn :=
  let drained := c.queued.map CloseEv.wrote
  let cleanup :=
    if sendingOk = false then
      []
    else if c.subscribed then
      if clsOk then
        drained ++ [CloseEv.wrote "CLS"] ++ c.inflight.map CloseEv.awaitedInflight
      else
        drained ++ [CloseEv.wrote "CLS"]
    else
      drained
  (cleanup ++ [CloseEv.setClosed, CloseEv.endedSocket],
   { c with state := St.closed })

/-! ## Reconnect policy (claim C7)

`ReconnectingSocket._reconnect` (lib/socket.js 36-59): on any close while
reconnects are enabled, emit `disconnect`; if `attempts + 1 ≥
maxConnectAttempts`, emit an error "Maximum reconnect attempts exceeded"
and `failed` and mark the socket finished (terminal); otherwise schedule a
retry after `min(attempts × reconnectDelayFactor, maxReconnectDelay)` ms.
The retry timer increments the attempt count and reconnects; a successful
reconnect runs `_emitReconnect`, which emits `reconnect` and restores the
saved `connect` listeners — it does not modify `_connectAttempts`, which
is assigned only in the constructor. -/

/-- The socket options the reconnect policy reads. -/
structure RSockOpts where
  maxConnectAttempts : Nat
  reconnectDelayFactor : Nat
  maxReconnectDelay : Nat
deriving DecidableEq

/-- The reconnect-relevant socket state. -/
structure RSock where
  connectAttempts : Nat
  finished : Bool
deriving DecidableEq

/-- Events emitted or scheduled by the reconnect machinery. -/
inductive RSockEv
  | errorEv (msg : String)
  | failed
  | scheduledRetry (delayMs : Nat)
  | reconnectEv
deriving DecidableEq

/-- The body of `_reconnect` after the unconditional `disconnect`
emission: the terminal branch or the retry scheduling. -/
def reconnectOnClose (o : RSockOpts) (s : RSock) : RSock × List RSockEv :=
  if o.maxConnectAttempts ≤ s.connectAttempts + 1 then
    ({ s with finished := true },
     [RSockEv.errorEv "Maximum reconnect attempts exceeded", RSockEv.failed])
  else
    (s, [RSockEv.scheduledRetry
      (min (s.connectAttempts * o.reconnectDelayFactor) o.maxReconnectDelay)])

/-- The retry timer callback: `++this._connectAttempts`, then reconnect. -/
def retryStart (s : RSock) : RSock :=
  { s with connectAttempts := s.connectAttempts + 1 }

/-- `_emitReconnect`, run when a retry's connect succeeds: emits
`reconnect` and restores the saved listeners; `_connectAttempts` is left
as it is (the source assigns it nowhere outside the constructor and the
retry timer). -/
def onReconnected (s : RSock) : RSock × List RSockEv :=
  (s, [RSockEv.reconnectEv])

/-! ## subscribe (claim C10)

`Connection.subscribe` (lib/connection.js 296-307): when
`this.subscribed` is already set, reject with the recorded subscription
interpolated into the message and change nothing; otherwise record
`topic.channel` and enqueue the SUB envelope. -/

/-- The connection state `subscribe` touches: the recorded subscription
(`topic.channel`, `false`/`none` before any subscribe) and the command
queue. -/
structure SubState where
  subscribed : Option String
  queue : List String
deriving DecidableEq

/-- `Connection.subscribe`. -/
def subscribe (c : SubState) (topic channel : String) : Except String Unit × SubState :=
  match c.subscribed with
  | some sub =>
      (Except.error ("This connection is already subscribed to " ++ sub), c)
  | none =>
      (Except.ok (),
       { subscribed := some (topic ++ "." ++ channel)
         queue := c.queue ++ ["SUB " ++ topic ++ " " ++ channel] })

/-! ## Theorems -/

theorem readU32_beU32_append (n : Nat) (h : n < 2 ^ 32) (r : List Nat) :
    readU32 (beU32 n ++ r) = n := by
  simp only [beU32, List.cons_append, List.nil_append, readU32]
  omega

theorem readI32_beU32_append (n : Nat) (h : n < 2 ^ 31) (r : List Nat) :
    readI32 (beU32 n ++ r) = n := by
  rw [readI32, readU32_beU32_append n (by omega) r, if_pos h]

theorem encodeFrame_length (f : Frame) : (encodeFrame f).length = 8 + f.body.length := by
  simp [encodeFrame, beU32]
  omega

theorem encodeFrames_cons (f : Frame) (fs : List Frame) :
    encodeFrames (f :: fs) = encodeFrame f ++ encodeFrames fs := by
  simp [encodeFrames]

theorem encodeFrames_append (a b : List Frame) :
    encodeFrames (a ++ b) = encodeFrames a ++ encodeFrames b := by
  simp [encodeFrames]

theorem readU32_of_pref {q r : List Nat} (h : Pref q r) (h4 : 4 ≤ q.length) :
    readU32 q = readU32 r := by
  obtain ⟨t, rfl⟩ := h
  rcases q with _ | ⟨a, _ | ⟨b, _ | ⟨c, _ | ⟨d, rest⟩⟩⟩⟩
  · simp at h4
  · simp at h4
  · simp at h4
  · simp at h4
  · rfl

theorem readI32_of_pref {q r : List Nat} (h : Pref q r) (h4 : 4 ≤ q.length) :
    readI32 q = readI32 r := by
  simp [readI32, readU32_of_pref h h4]

theorem take_len_append (l₁ l₂ : List Nat) (n : Nat) (h : l₁.length = n) :
    (l₁ ++ l₂).take n = l₁ := by
  subst h
  exact List.take_left _ _

theorem drop_len_append (l₁ l₂ : List Nat) (n : Nat) (h : l₁.length = n) :
    (l₁ ++ l₂).drop n = l₂ := by
  subst h
  exact List.drop_left _ _

theorem readI32_encodeFrame_append (f : Frame) (hwf : WFFrame f) (r : List Nat) :
    readI32 (encodeFrame f ++ r) = ((4 + f.body.length : Nat) : Int) := by
  rw [encodeFrame, List.append_assoc, List.append_assoc]
  exact readI32_beU32_append _ hwf.1 _

theorem drain_stop {q : List Nat} {fs : List Frame} (hp : PartialNext q fs)
    (hwf : ∀ f ∈ fs, WFFrame f) : ∀ fuel, drain fuel q = ([], q) := by
  intro fuel
  cases fuel with
  | zero => rfl
  | succ fuel =>
    by_cases h4 : q.length < 4
    · simp [drain, h4]
    · cases fs with
      | nil =>
        have hq : q = [] := hp
        subst hq
        simp at h4
      | cons f rest =>
        obtain ⟨hpref, hlen⟩ := hp
        have hwff := hwf f (List.mem_cons_self f rest)
        have hsize : readI32 q = ((4 + f.body.length : Nat) : Int) := by
          rw [readI32_of_pref hpref (by omega)]
          rw [show encodeFrame f = encodeFrame f ++ [] from (List.append_nil _).symm]
          exact readI32_encodeFrame_append f hwff []
        have hguard : (q.length : Int) < 4 + readI32 q := by
          rw [hsize]
          rw [encodeFrame_length] at hlen
          push_cast
          omega
        simp [drain, h4, hguard]

theorem drain_step (f : Frame) (hwf : WFFrame f) (L : List Nat) (fuel : Nat) :
    drain (fuel + 1) (encodeFrame f ++ L)
      = (frameOut f :: (drain fuel L).1, (drain fuel L).2) := by
  have hlen4 : ¬ (encodeFrame f ++ L).length < 4 := by
    rw [List.length_append, encodeFrame_length]
    omega
  have hsize := readI32_encodeFrame_append f hwf L
  have hguard : ¬ ((encodeFrame f ++ L).length : Int)
      < 4 + readI32 (encodeFrame f ++ L) := by
    rw [hsize, List.length_append, encodeFrame_length]
    push_cast
    omega
  have hfsz : (4 + readI32 (encodeFrame f ++ L)).toNat = 8 + f.body.length := by
    rw [hsize]
    omega
  have htype : readI32 ((encodeFrame f ++ L).drop 4) = (f.type : Int) := by
    rw [encodeFrame, List.append_assoc, List.append_assoc,
      drop_len_append (beU32 (4 + f.body.length)) _ 4 rfl]
    exact readI32_beU32_append _ hwf.2 _
  have hdata : ((encodeFrame f ++ L).take (8 + f.body.length)).drop 8 = f.body := by
    rw [show 8 + f.body.length = (encodeFrame f).length from (encodeFrame_length f).symm]
    rw [List.take_left, encodeFrame]
    exact drop_len_append (beU32 (4 + f.body.length) ++ beU32 f.type) _ 8 rfl
  have hrest : (encodeFrame f ++ L).drop (8 + f.body.length) = L := by
    rw [show 8 + f.body.length = (encodeFrame f).length from (encodeFrame_length f).symm]
    exact List.drop_left _ _
  simp only [drain, if_neg hlen4, if_neg hguard]
  rw [hfsz, htype, hdata, hrest]
  rfl

theorem drain_encode (q : List Nat) (rest : List Frame) (hq : PartialNext q rest)
    (hwr : ∀ f ∈ rest, WFFrame f) :
    ∀ (fs : List Frame), (∀ f ∈ fs, WFFrame f) →
      ∀ fuel, (encodeFrames fs ++ q).length ≤ fuel →
        drain fuel (encodeFrames fs ++ q) = (fs.map frameOut, q) := by
  intro fs
  induction fs with
  | nil =>
    intro _ fuel _
    simpa [encodeFrames] using drain_stop hq hwr fuel
  | cons f fs ih =>
    intro hwf fuel hfuel
    have hwff : WFFrame f := hwf f (List.mem_cons_self f fs)
    have hwf2 : ∀ g ∈ fs, WFFrame g := fun g hg => hwf g (List.mem_cons_of_mem f hg)
    have hflat : encodeFrames (f :: fs) ++ q = encodeFrame f ++ (encodeFrames fs ++ q) := by
      rw [encodeFrames_cons, List.append_assoc]
    rw [hflat] at hfuel ⊢
    cases fuel with
    | zero =>
      exfalso
      rw [List.length_append, encodeFrame_length] at hfuel
      omega
    | succ fuel =>
      rw [drain_step f hwff _ fuel]
      rw [ih hwf2 fuel (by rw [List.length_append, encodeFrame_length] at hfuel; omega)]
      rfl

theorem pref_of_pref_le {a b c : List Nat} (ha : Pref a c) (hb : Pref b c)
    (hab : a.length ≤ b.length) : Pref a b := by
  obtain ⟨s, hs⟩ := ha
  obtain ⟨t, ht⟩ := hb
  have hc : a ++ s = b ++ t := by rw [hs, ht]
  have ha2 : a = b.take a.length := by
    have h1 : (a ++ s).take a.length = a := List.take_left a s
    rw [hc, List.take_append_eq_append_take, Nat.sub_eq_zero_of_le hab] at h1
    simpa using h1.symm
  refine ⟨b.drop a.length, ?_⟩
  nth_rewrite 1 [ha2]
  exact List.take_append_drop _ _

theorem decomposePref : ∀ (fs : List Frame), (∀ f ∈ fs, WFFrame f) →
    ∀ (b : List Nat), Pref b (encodeFrames fs) →
      ∃ fs1 fs2 q, fs = fs1 ++ fs2 ∧ b = encodeFrames fs1 ++ q ∧ PartialNext q fs2 := by
  intro fs
  induction fs with
  | nil =>
    intro _ b hb
    obtain ⟨t, ht⟩ := hb
    have hb0 : b = [] := by
      have hlen := congrArg List.length ht
      simp [encodeFrames] at hlen
      exact hlen.1
    refine ⟨[], [], [], rfl, ?_, ?_⟩
    · simp [encodeFrames, hb0]
    · rfl
  | cons f fs ih =>
    intro hwf b hb
    by_cases hbl : b.length < (encodeFrame f).length
    · exact ⟨[], f :: fs, b, rfl, by simp [encodeFrames],
        ⟨pref_of_pref_le hb ⟨encodeFrames fs, (encodeFrames_cons f fs).symm⟩
          (Nat.le_of_lt hbl), hbl⟩⟩
    · push_neg at hbl
      have hpf : Pref (encodeFrame f) b :=
        pref_of_pref_le ⟨encodeFrames fs, (encodeFrames_cons f fs).symm⟩ hb hbl
      obtain ⟨b2, rfl⟩ := hpf
      have hb2 : Pref b2 (encodeFrames fs) := by
        obtain ⟨t, ht⟩ := hb
        refine ⟨t, ?_⟩
        have h0 : encodeFrame f ++ (b2 ++ t) = encodeFrame f ++ encodeFrames fs := by
          rw [← List.append_assoc, ht, encodeFrames_cons]
        exact List.append_cancel_left h0
      obtain ⟨fs1, fs2, q, h1, h2, h3⟩ :=
        ih (fun g hg => hwf g (List.mem_cons_of_mem f hg)) b2 hb2
      refine ⟨f :: fs1, fs2, q, ?_, ?_, h3⟩
      · rw [List.cons_append, ← h1]
      · rw [encodeFrames_cons, h2, List.append_assoc]

theorem feedAll_encode : ∀ (chunks : List (List Nat)) (fs2 : List Frame) (q : List Nat),
    (∀ f ∈ fs2, WFFrame f) → PartialNext q fs2 →
    q ++ chunks.flatten = encodeFrames fs2 →
    feedAll q chunks = (fs2.map frameOut, []) := by
  intro chunks
  induction chunks with
  | nil =>
    intro fs2 q hwf hp hj
    simp only [List.flatten_nil, List.append_nil] at hj
    cases fs2 with
    | nil =>
      have hq : q = [] := hp
      rw [hq]
      rfl
    | cons f t =>
      exfalso
      obtain ⟨hpref, hlen⟩ := hp
      have hge : (encodeFrame f).length ≤ q.length := by
        rw [hj, encodeFrames_cons, List.length_append]
        omega
      omega
  | cons ch cs ih =>
    intro fs2 q hwf hp hj
    rw [List.flatten_cons, ← List.append_assoc] at hj
    have hbpref : Pref (q ++ ch) (encodeFrames fs2) := ⟨cs.flatten, hj⟩
    obtain ⟨fs1, fs2p, q2, heq, hbe, hp2⟩ := decomposePref fs2 hwf (q ++ ch) hbpref
    have hwf1 : ∀ g ∈ fs1, WFFrame g := fun g hg =>
      hwf g (by rw [heq]; exact List.mem_append_left _ hg)
    have hwf2 : ∀ g ∈ fs2p, WFFrame g := fun g hg =>
      hwf g (by rw [heq]; exact List.mem_append_right _ hg)
    have hchunk : feedChunk q ch = (fs1.map frameOut, q2) := by
      rw [feedChunk, hbe]
      exact drain_encode q2 fs2p hp2 hwf2 fs1 hwf1 _ (Nat.le_refl _)
    have hj2 : q2 ++ cs.flatten = encodeFrames fs2p := by
      have h0 : encodeFrames fs1 ++ (q2 ++ cs.flatten)
          = encodeFrames fs1 ++ encodeFrames fs2p := by
        rw [← List.append_assoc, ← hbe, hj, heq, encodeFrames_append]
      exact List.append_cancel_left h0
    have htail := ih fs2p q2 hwf2 hp2 hj2
    simp only [feedAll, hchunk, htail]
    rw [heq, List.map_append]

theorem nilPartialNext (fs : List Frame) : PartialNext [] fs := by
  cases fs with
  | nil => rfl
  | cons f t =>
    refine ⟨⟨encodeFrame f, rfl⟩, ?_⟩
    simp only [List.length_nil, encodeFrame_length]
    omega

/-- Claim C8: the streaming deframer is split-invariant — for every finite
sequence of well-formed frames and every partition of the concatenated
bytes into nonempty chunks delivered in order, feeding the chunks one at a
time emits exactly the frames in order (with an empty final buffer), the
same output as feeding the whole concatenation at once. -/
theorem c8_deframer_split_invariant (fs : List Frame) (chunks : List (List Nat))
    (hwf : ∀ f ∈ fs, WFFrame f)
    (_hne : ∀ ch ∈ chunks, ch ≠ [])
    (hjoin : chunks.flatten = encodeFrames fs) :
    feedAll [] chunks = (fs.map frameOut, []) ∧
    feedAll [] chunks = feedAll [] [chunks.flatten] := by
  have h1 := feedAll_encode chunks fs [] hwf (nilPartialNext fs) (by simpa using hjoin)
  have h2 := feedAll_encode [chunks.flatten] fs [] hwf (nilPartialNext fs)
    (by simpa using hjoin)
  exact ⟨h1, h1.trans h2.symm⟩

/-- Witness for C8: one frame (type 0, body [42]) delivered split across
two chunks, cut inside the frame header's type field. -/
theorem c8_deframer_split_invariant_witness :
    feedAll [] [[0, 0, 0, 5, 0], [0, 0, 0, 42]] = ([((0 : Int), [42])], []) ∧
    feedAll [] [[0, 0, 0, 5, 0], [0, 0, 0, 42]]
      = feedAll [] [([[0, 0, 0, 5, 0], [0, 0, 0, 42]] : List (List Nat)).flatten] :=
  c8_deframer_split_invariant [⟨0, [42]⟩] [[0, 0, 0, 5, 0], [0, 0, 0, 42]]
    (by
      intro f hf
      rw [List.mem_singleton] at hf
      subst hf
      exact ⟨by decide, by decide⟩)
    (by decide) (by decide)

theorem evenIdx_pairs (bodies : List (List Nat)) :
    evenIdx ((bodies.map (fun b => [beU32 b.length, b])).flatten)
      = bodies.map (fun b => beU32 b.length) := by
  induction bodies with
  | nil => rfl
  | cons b bs ih =>
    simp only [List.map_cons, List.flatten_cons, List.cons_append, List.nil_append]
    rw [show ∀ x y rest, evenIdx (x :: y :: rest) = x :: evenIdx rest
      from fun x y rest => rfl, ih]

theorem length_pairs (bodies : List (List Nat)) :
    ((bodies.map (fun b => [beU32 b.length, b])).flatten).length = 2 * bodies.length := by
  induction bodies with
  | nil => rfl
  | cons b bs ih =>
    simp only [List.map_cons, List.flatten_cons, List.length_append, List.length_cons,
      List.length_nil, List.length_map] at ih ⊢
    omega

theorem flatten_pairs (bodies : List (List Nat)) :
    ((bodies.map (fun b => [beU32 b.length, b])).flatten).flatten
      = (bodies.map (fun b => beU32 b.length ++ b)).flatten := by
  induction bodies with
  | nil => rfl
  | cons b bs ih =>
    simp [ih, List.append_assoc]

/-- Claim C9 counterexample: the two MPUB encoders disagree on every
multi-body payload — for topic "t" and bodies "a", "b" the Connection's
`appendPayload` writes total_body_size 10 (the sum of `4 + length` over
the bodies) while the codec's `createPayload` writes 2 (the sum of the
body lengths alone), so the produced bytes differ. -/
theorem c9_encoders_differ :
    connectionMpub [116] [[97], [98]] ≠ createPayloadMpub [116] [[97], [98]] := by
  decide

/-- Claim C9 (amended): for every topic and every list of at least two
message bodies, both encoders emit the command line, a 4-byte big-endian
total, a 4-byte big-endian count, and `count` repetitions of
`[4-byte length][body]` — but the totals differ: `appendPayload` writes
`Σ (4 + |body|)` where `createPayload` writes `Σ |body|`, so the outputs
agree everywhere except that one field.  (With fewer than two bodies
`createPayload` omits the 8-byte total/count header entirely while
`appendPayload` always emits it.) -/
theorem c9_mpub_encoders (topic : List Nat) (bodies : List (List Nat))
    (h2 : 2 ≤ bodies.length) (hlen : ∀ b ∈ bodies, b.length < 2 ^ 31) :
    connectionMpub topic bodies
      = mpubLine topic
          ++ beU32 ((bodies.map (fun b => 4 + b.length)).sum)
          ++ beU32 bodies.length
          ++ (bodies.map (fun b => beU32 b.length ++ b)).flatten ∧
    createPayloadMpub topic bodies
      = mpubLine topic
          ++ beU32 ((bodies.map (fun b => b.length)).sum)
          ++ beU32 bodies.length
          ++ (bodies.map (fun b => beU32 b.length ++ b)).flatten := by
  constructor
  · simp only [connectionMpub, appendPayloadList, List.append_assoc]
    rfl
  · rcases bodies with _ | ⟨b, bs⟩
    · exact absurd h2 (by simp)
    · simp only [createPayloadMpub]
      rw [if_pos (by rw [length_pairs]; simp only [List.length_cons] at h2 ⊢; omega)]
      rw [evenIdx_pairs, length_pairs, flatten_pairs]
      have hsum : ((b :: bs).map (fun x => beU32 x.length)).map readU32
          = (b :: bs).map (fun x => x.length) := by
        rw [List.map_map]
        apply List.map_congr_left
        intro x hx
        have hx31 := hlen x hx
        simpa using readU32_beU32_append x.length (by omega) []
      rw [hsum, Nat.mul_div_cancel_left _ (show 0 < 2 by omega)]

/-- Witness for C9 (amended) at topic "t" with bodies "a", "b". -/
theorem c9_mpub_encoders_witness :
    connectionMpub [116] [[97], [98]]
      = mpubLine [116]
          ++ beU32 ((([[97], [98]] : List (List Nat)).map (fun b => 4 + b.length)).sum)
          ++ beU32 ([[97], [98]] : List (List Nat)).length
          ++ (([[97], [98]] : List (List Nat)).map (fun b => beU32 b.length ++ b)).flatten ∧
    createPayloadMpub [116] [[97], [98]]
      = mpubLine [116]
          ++ beU32 ((([[97], [98]] : List (List Nat)).map (fun b => b.length)).sum)
          ++ beU32 ([[97], [98]] : List (List Nat)).length
          ++ (([[97], [98]] : List (List Nat)).map (fun b => beU32 b.length ++ b)).flatten :=
  c9_mpub_encoders [116] [[97], [98]] (by decide) (by decide)

theorem totalReady_append (a b : List Conn) :
    totalReady (a ++ b) = totalReady a + totalReady b := by
  simp [totalReady]

theorem totalReady_take_drop (n : Nat) (l : List Conn) :
    totalReady (l.take n) + totalReady (l.drop n) = totalReady l := by
  rw [← totalReady_append, List.take_append_drop]

theorem totalReady_map_setReady (n : Nat) (l : List Conn) :
    totalReady (l.map (setReady n)) = l.length * n := by
  induction l with
  | nil => simp [totalReady]
  | cons a t ih =>
    simp only [List.map_cons, totalReady, List.sum_cons, List.length_cons] at ih ⊢
    rw [Nat.add_mul, Nat.one_mul, ih]
    exact Nat.add_comm _ _

theorem totalReady_eq_zero (l : List Conn) (h : ∀ x ∈ l, x.ready = 0) :
    totalReady l = 0 := by
  induction l with
  | nil => rfl
  | cons a t ih =>
    have ha := h a (List.mem_cons_self a t)
    simp [totalReady] at ih ⊢
    exact ⟨ha, ih fun x hx => h x (List.mem_cons_of_mem a hx)⟩

theorem length_le_totalReady (l : List Conn) (h : ∀ x ∈ l, 0 < x.ready) :
    l.length ≤ totalReady l := by
  induction l with
  | nil => simp [totalReady]
  | cons a t ih =>
    have ha := h a (List.mem_cons_self a t)
    have ht := ih fun x hx => h x (List.mem_cons_of_mem a hx)
    simp [totalReady] at ht ⊢
    omega

theorem totalReady_sortByLastMessage (l : List Conn) :
    totalReady (sortByLastMessage l) = totalReady l := by
  unfold totalReady sortByLastMessage
  exact ((List.perm_insertionSort
    (fun a b => a.lastMessage ≤ b.lastMessage) l).map (·.ready)).sum_eq

theorem mem_sortByLastMessage {x : Conn} {l : List Conn} :
    x ∈ sortByLastMessage l ↔ x ∈ l :=
  List.mem_insertionSort _

theorem totalReady_filter_le (p : Conn → Bool) (l : List Conn) :
    totalReady (l.filter p) ≤ totalReady l := by
  induction l with
  | nil => simp
  | cons a t ih =>
    by_cases hp : p a
    · simp [List.filter_cons, hp, totalReady] at ih ⊢
      omega
    · simp [List.filter_cons, hp, totalReady] at ih ⊢
      omega

/-- Claim C1 (amended): a run of `_distributeReady` whose pre-run granted
ready counts sum to at most the effective concurrency `c` leaves the sum
at most `c` — in particular the sum never exceeds the concurrency while
the effective concurrency is unchanged or raised.  (A pause run, which
lowers the effective concurrency to 0, does not restore the bound; see
the counterexample.) -/
theorem c1_distribute_sum_bounded (c : Nat) (conns : List Conn)
    (h : totalReady conns ≤ c) :
    totalReady (distributeReady c conns) ≤ c := by
  rw [distributeReady]
  split
  case isFalse hge =>
    rw [totalReady_map_setReady]
    calc conns.length * (c / conns.length)
        = c / conns.length * conns.length := Nat.mul_comm _ _
      _ ≤ c := Nat.div_mul_le_self c conns.length
  case isTrue hlt =>
    simp only []
    set U := sortByLastMessage (conns.filter fun x => 0 < x.ready) with hUdef
    set V := sortByLastMessage (conns.filter fun x => x.ready = 0) with hVdef
    set k := (V.take c).length with hkdef
    have hUpos : ∀ x ∈ U, 0 < x.ready := by
      intro x hx
      have := mem_sortByLastMessage.1 hx
      have := List.of_mem_filter this
      simpa using this
    have hV0 : ∀ x ∈ V, x.ready = 0 := by
      intro x hx
      have := mem_sortByLastMessage.1 hx
      have := List.of_mem_filter this
      simpa using this
    have hUle : totalReady U ≤ c := by
      rw [hUdef, totalReady_sortByLastMessage]
      exact le_trans (totalReady_filter_le _ conns) h
    have hkc : k ≤ c := by
      rw [hkdef, List.length_take]
      omega
    rw [totalReady_append, totalReady_append, totalReady_append,
      totalReady_map_setReady, totalReady_map_setReady,
      totalReady_eq_zero (V.drop c) (fun x hx => hV0 x (List.mem_of_mem_drop hx))]
    simp only [Nat.mul_zero, Nat.mul_one, Nat.zero_add, Nat.add_zero]
    -- goal: totalReady (U.drop k) + k ≤ c
    by_cases hk : k ≤ U.length
    · have h1 : (U.take k).length = k := by
        rw [List.length_take]
        omega
      have h2 : k ≤ totalReady (U.take k) := by
        calc k = (U.take k).length := h1.symm
          _ ≤ totalReady (U.take k) :=
            length_le_totalReady _ (fun x hx => hUpos x (List.mem_of_mem_take hx))
      have h3 := totalReady_take_drop k U
      omega
    · have hnil : U.drop k = [] := List.drop_eq_nil_of_le (by omega)
      rw [hnil]
      have hz : totalReady ([] : List Conn) = 0 := rfl
      omega

/-- Witness for C1 (amended) at a concrete input: one connection holding
ready = 1, effective concurrency 1. -/
theorem c1_distribute_sum_bounded_witness :
    totalReady (distributeReady 1 [{ ready := 1, lastMessage := 5 }, { ready := 0, lastMessage := 3 }]) ≤ 1 :=
  c1_distribute_sum_bounded 1
    [{ ready := 1, lastMessage := 5 }, { ready := 0, lastMessage := 3 }] (by decide)

/-- Claim C1 counterexample: a run triggered by `pause` (effective
concurrency 0) leaves a previously granted ready count of 1 in place —
`used.slice(0, unused.length)` is empty because `unused` was sliced to the
concurrency 0 — so the sum of granted ready counts is 1 > 0, violating
the claimed bound at that time. -/
theorem c1_pause_exceeds_budget :
    totalReady (distributeReady 0 [{ ready := 1, lastMessage := 0 }]) = 1 ∧
    ¬ totalReady (distributeReady 0 [{ ready := 1, lastMessage := 0 }]) ≤ 0 := by
  decide

/-- Claim C3 counterexample: with effective concurrency 0 (paused) and
connections {ready = 1, ready = 0}, the code leaves the used connection at
ready = 1 (it zeroes only the first min(C, |unused|) = 0 entries of used),
while the claim's literal reading — ready = 0 on the first |unused| = 1
entries of used — would zero it. -/
theorem c3_literal_spec_differs :
    distributeReady 0 [{ ready := 1, lastMessage := 0 }, { ready := 0, lastMessage := 0 }]
      ≠ specDistributeReady 0 [{ ready := 1, lastMessage := 0 }, { ready := 0, lastMessage := 0 }] := by
  decide

/-- Claim C3 (amended): `_distributeReady` grants ⌊C/N⌋ to every
connection when C ≥ N (dropping the remainder), and when C < N it grants
ready = 1 to the first C entries of unused (sorted by last message
ascending) and ready = 0 to the first min(C, |unused|) entries of used
(sorted likewise), leaving all other ready counts unchanged. -/
theorem c3_distribute_matches_amended_spec (c : Nat) (conns : List Conn) :
    distributeReady c conns = specDistributeReadyAmended c conns := by
  by_cases hlt : c < conns.length
  · have hfilter : List.filter (fun x => decide (x.ready = 0)) conns
        = List.filter (fun x => !(decide (0 < x.ready))) conns := by
      apply List.filter_congr
      intro x _
      rcases Nat.eq_zero_or_pos x.ready with h0 | hpos
      · simp [h0]
      · simp [hpos, Nat.pos_iff_ne_zero.1 hpos]
    have hlen : (List.take c (sortByLastMessage
          (List.filter (fun x => !(decide (0 < x.ready))) conns))).length
        = min c (List.filter (fun x => !(decide (0 < x.ready))) conns).length := by
      rw [List.length_take]
      congr 1
      exact List.length_insertionSort _ _
    simp only [distributeReady, specDistributeReadyAmended, if_pos hlt,
      if_neg (show ¬ conns.length ≤ c by omega), List.partition_eq_filter_filter,
      Function.comp_def]
    rw [hfilter, hlen]
  · simp only [distributeReady, specDistributeReadyAmended, if_neg hlt,
      if_pos (show conns.length ≤ c by omega)]

end Squeaky

namespace Squeaky

/-- Claim C2 (code bug): the claimed invariant — at most one
response-bearing command outstanding in every reachable state — is the
design the spec legislates (a single-slot waiter), and the older
revision's single `_envelope` slot (lib/connection.js 247-258) does
enforce it structurally; but src/unnamed/part_005 violates it.  With a
response-bearing command written and unanswered when the socket drops,
`_reconnect` leaves its waiter in `this.waiting` and the reconnect's
`_identify` pushes a second waiter through the `isIdentify` bypass of
`_send`, so the connection reaches two outstanding waiters (and the next
RESPONSE then resolves the stale user waiter with the IDENTIFY payload).
This theorem evaluates the embedded source at that run: the two-waiter
state is reachable, refuting the bound. -/
theorem c2_two_waiters_after_reconnect :
    SendReachable
      { pending := [], waiting := [⟨1, true⟩, ⟨2, true⟩],
        blockedOn := some ⟨1, true⟩,
        written := [⟨0, true⟩, ⟨1, true⟩, ⟨2, true⟩], link := true } ∧
    ¬ ([(⟨1, true⟩ : Cmd), ⟨2, true⟩] : List Cmd).length ≤ 1 := by
  constructor
  · -- construct → connect → IDENTIFY → its RESPONSE → submit and write a
    -- response-bearing command → socket drops → reconnect IDENTIFY
    have h0 : SendReachable initSend := SendReachable.init
    have h1 := SendReachable.step h0 (SendStep.identifyBypass initSend ⟨0, true⟩ rfl rfl)
    have h2 := SendReachable.step h1 (SendStep.response _ ⟨0, true⟩ [] rfl rfl)
    have h3 := SendReachable.step h2 (SendStep.submit _ ⟨1, true⟩)
    have h4 := SendReachable.step h3 (SendStep.write _ ⟨1, true⟩ [] rfl rfl)
    have h5 := SendReachable.step h4 (SendStep.drop _ rfl)
    exact SendReachable.step h5 (SendStep.identifyBypass _ ⟨2, true⟩ rfl rfl)
  · decide

/-- The trace of every `close` run is some cleanup prefix followed by
exactly `[setClosed, endedSocket]`, and the prefix holds only writes and
inflight awaits. -/
theorem close_trace_shape (c : CloseConn) (sendingOk clsOk : Bool) :
    ∃ pre, (close c sendingOk clsOk).1 = pre ++ [CloseEv.setClosed, CloseEv.endedSocket] ∧
      ∀ e ∈ pre, e ≠ CloseEv.setClosed ∧ e ≠ CloseEv.endedSocket := by
  by_cases hok : sendingOk = false
  · exact ⟨[], by simp [close, hok], by simp⟩
  · have hok2 : sendingOk = true := by
      revert hok
      cases sendingOk <;> simp
    by_cases hs : c.subscribed = true
    · by_cases hc : clsOk = true
      · refine ⟨c.queued.map CloseEv.wrote ++ [CloseEv.wrote "CLS"]
            ++ c.inflight.map CloseEv.awaitedInflight,
          by simp [close, hok2, hs, hc], ?_⟩
        intro e he
        rcases List.mem_append.1 he with h1 | h2
        · rcases List.mem_append.1 h1 with h3 | h4
          · obtain ⟨x, _, rfl⟩ := List.mem_map.1 h3
            exact ⟨by simp, by simp⟩
          · rw [List.mem_singleton.1 h4]
            exact ⟨by simp, by simp⟩
        · obtain ⟨x, _, rfl⟩ := List.mem_map.1 h2
          exact ⟨by simp, by simp⟩
      · refine ⟨c.queued.map CloseEv.wrote ++ [CloseEv.wrote "CLS"],
          by simp [close, hok2, hs, hc], ?_⟩
        intro e he
        rcases List.mem_append.1 he with h1 | h2
        · obtain ⟨x, _, rfl⟩ := List.mem_map.1 h1
          exact ⟨by simp, by simp⟩
        · rw [List.mem_singleton.1 h2]
          exact ⟨by simp, by simp⟩
    · refine ⟨c.queued.map CloseEv.wrote, by simp [close, hok2, hs], ?_⟩
      intro e he
      obtain ⟨x, _, rfl⟩ := List.mem_map.1 he
      exact ⟨by simp, by simp⟩

/-- In a trace of the shape `pre ++ [setClosed, endedSocket]` whose
prefix holds neither marker, every prefix event precedes the Closed
transition. -/
theorem trace_before_closed (pre : List CloseEv)
    (hpre : ∀ e ∈ pre, e ≠ CloseEv.setClosed ∧ e ≠ CloseEv.endedSocket)
    (i j : Nat) (e : CloseEv)
    (hesc : e ≠ CloseEv.setClosed) (hees : e ≠ CloseEv.endedSocket)
    (hi : (pre ++ [CloseEv.setClosed, CloseEv.endedSocket])[i]? = some e)
    (hj : (pre ++ [CloseEv.setClosed, CloseEv.endedSocket])[j]?
      = some CloseEv.setClosed) :
    i < j := by
  have hiL : i < pre.length := by
    by_contra hic
    push_neg at hic
    rw [List.getElem?_append_right hic] at hi
    cases hv : i - pre.length with
    | zero =>
      rw [hv] at hi
      simp at hi
      exact hesc hi.symm
    | succ n =>
      cases n with
      | zero =>
        rw [hv] at hi
        simp at hi
        exact hees hi.symm
      | succ m =>
        rw [hv] at hi
        simp at hi
  have hjL : pre.length ≤ j := by
    by_contra hjc
    push_neg at hjc
    rw [List.getElem?_append_left hjc] at hj
    have hmem : CloseEv.setClosed ∈ pre := by
      obtain ⟨h1, h2⟩ := List.getElem?_eq_some_iff.1 hj
      exact h2 ▸ List.getElem_mem h1
    exact (hpre _ hmem).1 rfl
  omega

/-- Claim C6 (amended): when the cleanup chain resolves — the pending
commands complete without a rejection and (when subscribed) the CLS
response is not an error — `close()` on a subscribed connection drains
the command queue, sends CLS, awaits every inflight message's finalizer,
and only then sets the state to Closed and half-closes the socket; on an
unsubscribed connection it only drains the queue first.  Unconditionally
(also on the `.catch(finish)` rejection paths) the Closed transition is
followed immediately by the socket close and is preceded by every write
and every inflight await the run performs. -/
theorem c6_close_protocol (c : CloseConn) (sendingOk clsOk : Bool) :
    (close c sendingOk clsOk).2.state = St.closed ∧
    (sendingOk = true → clsOk = true → c.subscribed = true →
      (close c sendingOk clsOk).1
        = c.queued.map CloseEv.wrote ++ [CloseEv.wrote "CLS"]
            ++ c.inflight.map CloseEv.awaitedInflight
            ++ [CloseEv.setClosed, CloseEv.endedSocket]) ∧
    (sendingOk = true → c.subscribed = false →
      (close c sendingOk clsOk).1
        = c.queued.map CloseEv.wrote ++ [CloseEv.setClosed, CloseEv.endedSocket]) ∧
    (∀ (i id : Nat),
      ((close c sendingOk clsOk).1)[i]? = some (CloseEv.awaitedInflight id) →
      ∀ (j : Nat), ((close c sendingOk clsOk).1)[j]? = some CloseEv.setClosed →
      i < j) ∧
    (∀ (i : Nat) (cmd : String),
      ((close c sendingOk clsOk).1)[i]? = some (CloseEv.wrote cmd) →
      ∀ (j : Nat), ((close c sendingOk clsOk).1)[j]? = some CloseEv.setClosed →
      i < j) := by
  obtain ⟨pre, htr, hpre⟩ := close_trace_shape c sendingOk clsOk
  refine ⟨by simp [close], ?_, ?_, ?_, ?_⟩
  · intro hok hc hs
    simp [close, hok, hc, hs]
  · intro hok hs
    simp [close, hok, hs]
  · intro i id hi j hj
    rw [htr] at hi hj
    exact trace_before_closed pre hpre i j _ (by simp) (by simp) hi hj
  · intro i cmd hi j hj
    rw [htr] at hi hj
    exact trace_before_closed pre hpre i j _ (by simp) (by simp) hi hj

/-- Claim C6 counterexample: when the `sending` chain is already rejected
at `close()` time (poisoned by an earlier rejected response-bearing
command), `.catch(finish)` closes immediately: the subscribed connection
transitions to Closed and ends the socket without writing CLS, without
writing the queued command and without awaiting the inflight finalizer —
refuting the claim as stated. -/
theorem c6_rejected_cleanup_skips_cls :
    (close { subscribed := true, queued := ["RDY 1"], inflight := [7], state := St.ready }
        false true).1
      = [CloseEv.setClosed, CloseEv.endedSocket] ∧
    CloseEv.wrote "CLS"
      ∉ (close { subscribed := true, queued := ["RDY 1"], inflight := [7], state := St.ready }
          false true).1 ∧
    CloseEv.awaitedInflight 7
      ∉ (close { subscribed := true, queued := ["RDY 1"], inflight := [7], state := St.ready }
          false true).1 := by
  decide

/-- Witness for C6 (amended) at a concrete subscribed connection whose
cleanup chain resolves: the full ordered trace appears. -/
theorem c6_close_protocol_witness :
    (close { subscribed := true, queued := ["RDY 1"], inflight := [7], state := St.ready }
        true true).1
      = ["RDY 1"].map CloseEv.wrote ++ [CloseEv.wrote "CLS"]
          ++ [7].map CloseEv.awaitedInflight
          ++ [CloseEv.setClosed, CloseEv.endedSocket] :=
  (c6_close_protocol
    { subscribed := true, queued := ["RDY 1"], inflight := [7], state := St.ready }
    true true).2.1 rfl rfl rfl

/-- Claim C4: for every ERROR frame processed by a Connection, the
outstanding response waiter (if any) is rejected — the head of the waiter
list is removed and reported rejected — and the socket is half-closed if
and only if the error code is not one of E_REQ_FAILED, E_FIN_FAILED,
E_TOUCH_FAILED. -/
theorem c4_error_frame_classification (msg : String) (waiting : List Nat) :
    (processErrorFrame msg waiting).rejected = waiting.head? ∧
    (processErrorFrame msg waiting).waiting = waiting.tail ∧
    ((processErrorFrame msg waiting).halfClosed = true ↔
      ¬ errorCode msg ∈ nonFatalCodes) := by
  refine ⟨rfl, rfl, ?_⟩
  simp [processErrorFrame]

/-- Claim C5: `publish(topic, data, delay)` rejects with "Cannot delay a
multi publish" and leaves the connection state untouched when `data` is an
array and `delay` is truthy; otherwise it enqueues MPUB for an array,
DPUB with the delay for a truthy delay, and PUB otherwise. -/
theorem c5_publish_selection (c : PubConn) (topic : String) (data : PubData)
    (delay : Option Nat) :
    (delayTruthy delay = true → isArrayData data = true →
      publish c topic data delay = (Except.error "Cannot delay a multi publish", c)) ∧
    (isArrayData data = true → delayTruthy delay = false →
      publish c topic data delay
        = (Except.ok (), { c with queue := c.queue ++ [("MPUB " ++ topic, data)] })) ∧
    (∀ d : Nat, isArrayData data = false → delay = some d → d ≠ 0 →
      publish c topic data delay
        = (Except.ok (),
           { c with queue := c.queue ++ [("DPUB " ++ topic ++ " " ++ toString d, data)] })) ∧
    (isArrayData data = false → delayTruthy delay = false →
      publish c topic data delay
        = (Except.ok (), { c with queue := c.queue ++ [("PUB " ++ topic, data)] })) := by
  refine ⟨?_, ?_, ?_, ?_⟩
  · intro hd ha
    simp [publish, hd, ha]
  · intro ha hd
    simp [publish, pubCommand, ha, hd]
  · intro d ha hdel hd0
    subst hdel
    have ht : delayTruthy (some d) = true := by simp [delayTruthy, hd0]
    simp [publish, pubCommand, ha, ht, Option.getD]
  · intro ha hd
    simp [publish, pubCommand, ha, hd]

/-- Witness for C5 at a concrete input: a delayed multi publish is
rejected and the connection is unchanged. -/
theorem c5_publish_selection_witness :
    publish { queue := [], written := [] } "t" (PubData.arr [[97]]) (some 5)
      = (Except.error "Cannot delay a multi publish", { queue := [], written := [] }) :=
  (c5_publish_selection { queue := [], written := [] } "t" (PubData.arr [[97]]) (some 5)).1
    (by decide) (by decide)

/-- Claim C7 counterexample: the attempt count is not reset on a
successful reconnect.  From a fresh socket (0 attempts, maxConnectAttempts
5): the close handler schedules a retry (the non-terminal branch), the
retry increments the attempt count to 1, and after the successful
reconnect (`_emitReconnect`) the count is still 1, not 0 as the claim
states. -/
theorem c7_no_reset_on_reconnect :
    (reconnectOnClose ⟨5, 1000, 120000⟩ ⟨0, false⟩).2 = [RSockEv.scheduledRetry 0] ∧
    (onReconnected (retryStart (reconnectOnClose ⟨5, 1000, 120000⟩ ⟨0, false⟩).1)).1.connectAttempts
      = 1 ∧ (1 : Nat) ≠ 0 := by
  decide

/-- Claim C7 amended: if attempts + 1 ≥ maxConnectAttempts the socket
becomes terminal (finished) and emits an error with message exactly
"Maximum reconnect attempts exceeded" followed by `failed`; otherwise a
retry is scheduled after min(attempts × reconnectDelayFactor,
maxReconnectDelay) ms and attempts is incremented on each retry start; a
successful reconnect emits `reconnect` but leaves the attempt count
unchanged (it is initialised only at construction). -/
theorem c7_reconnect_policy (o : RSockOpts) (s : RSock) :
    (o.maxConnectAttempts ≤ s.connectAttempts + 1 →
      reconnectOnClose o s =
        ({ s with finished := true },
         [RSockEv.errorEv "Maximum reconnect attempts exceeded", RSockEv.failed])) ∧
    (s.connectAttempts + 1 < o.maxConnectAttempts →
      reconnectOnClose o s =
        (s, [RSockEv.scheduledRetry
          (min (s.connectAttempts * o.reconnectDelayFactor) o.maxReconnectDelay)])) ∧
    (retryStart s).connectAttempts = s.connectAttempts + 1 ∧
    (onReconnected s).1 = s ∧ (onReconnected s).2 = [RSockEv.reconnectEv] := by
  refine ⟨?_, ?_, rfl, rfl, rfl⟩
  · intro h
    simp [reconnectOnClose, h]
  · intro h
    rw [reconnectOnClose, if_neg (by omega)]

/-- Witness for C7 (amended) at a concrete input: with
maxConnectAttempts 1 the very first close is terminal with the exact
message. -/
theorem c7_reconnect_policy_witness :
    reconnectOnClose ⟨1, 1000, 120000⟩ ⟨0, false⟩
      = ({ connectAttempts := 0, finished := true },
         [RSockEv.errorEv "Maximum reconnect attempts exceeded", RSockEv.failed]) :=
  (c7_reconnect_policy ⟨1, 1000, 120000⟩ ⟨0, false⟩).1 (by decide)

/-- Claim C10: a second `subscribe` on an already-subscribed connection
rejects with "This connection is already subscribed to <recorded
subscription>" and returns the state unchanged: nothing is enqueued and
the recorded subscription is untouched. -/
theorem c10_second_subscribe_rejected (c : SubState) (topic channel sub : String)
    (h : c.subscribed = some sub) :
    subscribe c topic channel
      = (Except.error ("This connection is already subscribed to " ++ sub), c) := by
  simp [subscribe, h]

/-- Witness for C10 at a concrete input. -/
theorem c10_second_subscribe_rejected_witness :
    subscribe { subscribed := some "a.b", queue := ["SUB a b"] } "x" "y"
      = (Except.error "This connection is already subscribed to a.b",
         { subscribed := some "a.b", queue := ["SUB a b"] }) :=
  c10_second_subscribe_rejected { subscribed := some "a.b", queue := ["SUB a b"] } "x" "y" "a.b" rfl

end Squeaky
